import Mathlib

/-!
# Verification of the record indexing and lookup engine

Shallow embedding of the lookup components of the HPPS assignment-4 style
repository:

* `coord_query_naive.c` — nearest-neighbour lookup by planar coordinates
  (`mk_naive`, `lookup_naive`);
* the sorted-index id lookup (`mk_indexed`, `compare_index_records`,
  `lookup_indexed`) — binary search over a compact index sorted by `osm_id`.

Modelling conventions:

* a C `struct record *` pointer `&rs[i]` is modelled as the index `i : Nat`
  into the record store (a `List Record`);
* C `int64_t` identifiers and C `int` loop variables are modelled as `Int`
  (the binary-search bound variables really range over machine ints; the
  no-overflow bounds are proved separately);
* C `double` coordinates are modelled as exact rationals `Rat`: the code uses
  only subtraction, multiplication, addition and order comparison on them;
* `qsort` with a comparator is modelled by `List.mergeSort` ordered by that
  comparator: the C standard only guarantees that `qsort` produces a
  permutation of the array that is sorted with respect to the comparator,
  which `mergeSort` is;
* `malloc` outcomes are modelled, where a claim needs them, by an explicit
  allocation oracle together with a trace of heap events.
-/

namespace OSM

/-- One place record, as parsed into the record store (`struct record`):
a 64-bit signed identifier, planar coordinates, and a display name. -/
structure Record where
  osm_id : Int
  lon : Rat
  lat : Rat
  name : String
deriving DecidableEq, Repr

/-! ## Coordinate Scanner (`coord_query_naive.c`) -/

/-- `struct naive_data`: a borrowed reference to the record sequence and its
length (the length is implicit in the list). -/
structure NaiveData where
  rs : List Record
deriving DecidableEq, Repr

/-- `mk_naive` (lines 17–25): stores the reference to the record sequence. -/
def mk_naive (rs : List Record) : NaiveData := ⟨rs⟩

/-- The squared planar distance computed at lines 37–38 and 41–43 of
`coord_query_naive.c`: `(r.lon - lon)² + (r.lat - lat)²`. -/
def distSq (r : Record) (lon lat : Rat) : Rat :=
  (r.lon - lon) * (r.lon - lon) + (r.lat - lat) * (r.lat - lat)

/-- The records of the store paired with their indices, starting at `i`:
the iteration space of the C loops (`&rs[i]` is modelled by the index). -/
def enumFrom : Nat → List Record → List (Nat × Record)
  | _, [] => []
  | i, r :: rest => (i, r) :: enumFrom (i + 1) rest

/-- The loop of `lookup_naive` (lines 40–49): the accumulator is the pair
(index of the closest record so far, its squared distance); an entry replaces
it only on a strictly smaller distance. -/
def naiveGo (lon lat : Rat) : List (Nat × Record) → Nat × Rat → Nat × Rat
  | [], acc => acc
  | (i, r) :: rest, acc =>
      let d := distSq r lon lat
      naiveGo lon lat rest (if d < acc.2 then (i, d) else acc)

/-- `lookup_naive` (lines 31–52): returns `none` on an empty store, otherwise
starts from record 0 and scans records 1..n-1, returning (the index modelling)
the pointer to the closest record. -/
def lookup_naive (data : NaiveData) (lon lat : Rat) : Option Nat :=
  match data.rs with
  | [] => none
  | r0 :: rest =>
      some (naiveGo lon lat (enumFrom 1 rest) (0, distSq r0 lon lat)).1

example : lookup_naive (mk_naive []) 1 2 = none := rfl

example :
    lookup_naive
      (mk_naive [⟨1, 10, 10, "a"⟩, ⟨2, 0, 0, "b"⟩, ⟨3, 0, 0, "c"⟩]) 1 1 =
      some 1 := by
  norm_num [lookup_naive, mk_naive, naiveGo, enumFrom, distSq]

/-! ## Sorted Index (`id_query_binsort.c`) -/

/-- `struct index_record` (lines 12–15): a compact (identifier, pointer) pair;
the pointer `&rs[i]` is modelled as the index `i` into the record store. -/
structure IndexRecord where
  osm_id : Int
  record : Nat
deriving DecidableEq, Repr

/-- `struct indexed_data` (lines 17–20): the entry array and its length. -/
structure IndexedData where
  irs : List IndexRecord
  n : Nat
deriving DecidableEq, Repr

/-- `compare_index_records` (lines 23–34): three-way comparison on `osm_id`
alone, as handed to `qsort`. -/
def compare_index_records (a b : IndexRecord) : Int :=
  if a.osm_id < b.osm_id then -1
  else if a.osm_id > b.osm_id then 1
  else 0

/-- The loop at lines 49–52 of `mk_indexed`: entry `i` gets record `i`'s
identifier and a reference to record `i`, in store order. -/
def buildEntries : List Record → Nat → List IndexRecord
  | [], _ => []
  | r :: rest, i => ⟨r.osm_id, i⟩ :: buildEntries rest (i + 1)

/-- The order `qsort` establishes with `compare_index_records`: `a` may sit
no later than `b` when the comparator does not report "greater". -/
def irLe (a b : IndexRecord) : Bool := decide (compare_index_records a b ≤ 0)

/-- `mk_indexed` (lines 36–60), success path: build the entry array in store
order, then sort it with `compare_index_records`. `qsort` (line 57) is
modelled by `mergeSort` ordered by the same comparator: the C standard
guarantees exactly a sorted permutation. -/
def mk_indexed (rs : List Record) : IndexedData :=
  { irs := (buildEntries rs 0).mergeSort irLe,
    n := rs.length }

/-- The midpoint expression at line 72: `mid = left + (right - left) / 2`.
Both operands of the division are non-negative whenever `left ≤ right`, so C
truncating division and mathematical floor division agree here. -/
def bsMid (left right : Int) : Int := left + (right - left) / 2

/-- The `while (left <= right)` loop of `lookup_indexed` (lines 71–81).
Out-of-range probes (impossible from the actual entry point on a well-formed
index) answer `none`. -/
def lookupGo (irs : List IndexRecord) (needle : Int) (left right : Int) :
    Option Nat :=
  if left ≤ right then
    match irs[(bsMid left right).toNat]? with
    | some e =>
      if e.osm_id = needle then some e.record
      else if e.osm_id < needle then
        lookupGo irs needle (bsMid left right + 1) right
      else
        lookupGo irs needle left (bsMid left right - 1)
    | none => none
  else none
termination_by (right + 1 - left).toNat
decreasing_by
  · have h1 : 0 ≤ (right - left) / 2 :=
      Int.ediv_nonneg (by omega) (by omega)
    simp only [bsMid]
    omega
  · have h1 : (right - left) / 2 ≤ right - left :=
      Int.ediv_le_self _ (by omega)
    simp only [bsMid]
    omega

/-- `lookup_indexed` (lines 67–84): binary search over the whole entry array,
`left = 0`, `right = n - 1`. -/
def lookup_indexed (data : IndexedData) (needle : Int) : Option Nat :=
  lookupGo data.irs needle 0 ((data.n : Int) - 1)

example :
    lookup_indexed
      (mk_indexed [⟨40, 0, 0, "a"⟩, ⟨10, 0, 0, "b"⟩, ⟨30, 0, 0, "c"⟩]) 30 =
      some 2 := by
  simp [lookup_indexed, mk_indexed, buildEntries, List.mergeSort, irLe,
    compare_index_records, lookupGo, bsMid]

example :
    lookup_indexed
      (mk_indexed [⟨40, 0, 0, "a"⟩, ⟨10, 0, 0, "b"⟩, ⟨30, 0, 0, "c"⟩]) 7 =
      none := by
  simp [lookup_indexed, mk_indexed, buildEntries, List.mergeSort, irLe,
    compare_index_records, lookupGo, bsMid]

/-! ## Linear Scanner and Compact Index (modelled from the spec)

`id_query_naive.c` and `id_query_indexed.c` are named by the repository's
report but their sources are not in the provided tree; the definitions below
are modelled from the specification text (§4.1, §4.2). -/

/-- Modelled from the spec: the scan of `id_query_naive.c`'s lookup (Linear
Scanner, §4.1), whose source file is missing: scan records in sequence order
and return a reference to the first record whose identifier equals the query;
"not found" when the sequence is exhausted. `i` is the index of the head of
the remaining list within the full store. -/
def lookup_id_go (needle : Int) : Nat → List Record → Option Nat
  | _, [] => none
  | i, r :: rest =>
      if r.osm_id = needle then some i else lookup_id_go needle (i + 1) rest

/-- Modelled from the spec: `id_query_naive.c`'s lookup (§4.1), starting the
scan at the first record. -/
def lookup_id_naive (rs : List Record) (needle : Int) : Option Nat :=
  lookup_id_go needle 0 rs

/-- Modelled from the spec: `id_query_indexed.c`'s build (Compact Index,
§4.2), whose source file is missing: one Index Entry per record, populated
with each record's identifier and a reference to that record, in store order,
no sorting — the same entry array `mk_indexed` builds before sorting. -/
def mk_compact (rs : List Record) : List IndexRecord := buildEntries rs 0

/-- Modelled from the spec: the scan of `id_query_indexed.c`'s lookup (§4.2):
scan the Index Entry array in order comparing identifiers; on match return the
associated record reference; same first-match/not-found semantics as §4.1. -/
def lookup_compact_go (needle : Int) : List IndexRecord → Option Nat
  | [] => none
  | e :: rest =>
      if e.osm_id = needle then some e.record else lookup_compact_go needle rest

/-- Modelled from the spec: `id_query_indexed.c`'s lookup (§4.2). -/
def lookup_compact (irs : List IndexRecord) (needle : Int) : Option Nat :=
  lookup_compact_go needle irs

/-! ## Allocation behaviour of the builds

`mk_indexed` (lines 36–47) makes two heap allocations: block 0, the
`indexed_data` struct (line 37), and block 1, the `irs` entry array
(line 42). The oracle arguments say whether each `malloc` succeeds; the trace
records every allocation and release the call performs, in order. -/

/-- A heap event of a build call: allocation or release of a block. -/
inductive HeapEvent where
  | alloc (blockId : Nat)
  | free (blockId : Nat)
deriving DecidableEq, Repr

/-- The blocks a trace leaves allocated: allocations minus releases. -/
def retainedBlocks (evs : List HeapEvent) : List Nat :=
  evs.foldl
    (fun acc e =>
      match e with
      | .alloc b => acc ++ [b]
      | .free b => acc.filter (fun x => x ≠ b))
    []

/-- `mk_indexed` (lines 36–60) with explicit allocation outcomes: if the
first `malloc` fails, return NULL with nothing allocated (lines 38–40); if
the second fails, `free(data)` and return NULL (lines 43–46); otherwise
populate, sort and return the handle (lines 49–59). -/
def mk_indexed_allocs (a1 a2 : Bool) (rs : List Record) :
    Option IndexedData × List HeapEvent :=
  if a1 = false then (none, [])
  else if a2 = false then (none, [HeapEvent.alloc 0, HeapEvent.free 0])
  else (some (mk_indexed rs), [HeapEvent.alloc 0, HeapEvent.alloc 1])

/-- `mk_naive` of `coord_query_naive.c` (lines 17–25) with its single
allocation outcome: the `naive_data` struct (block 0). -/
def mk_naive_allocs (a1 : Bool) (rs : List Record) :
    Option NaiveData × List HeapEvent :=
  if a1 = false then (none, [])
  else (some (mk_naive rs), [HeapEvent.alloc 0])

/-! ## Helper lemmas -/

theorem getElem?_some_mem {α : Type} {l : List α} {i : Nat} {a : α}
    (h : l[i]? = some a) : a ∈ l := by
  rcases List.getElem?_eq_some_iff.1 h with ⟨hi, rfl⟩
  exact List.getElem_mem hi

theorem bsMid_ge {left right : Int} (h : left ≤ right) :
    left ≤ bsMid left right := by
  have h1 : 0 ≤ (right - left) / 2 := Int.ediv_nonneg (by omega) (by omega)
  unfold bsMid
  omega

theorem bsMid_le {left right : Int} (h : left ≤ right) :
    bsMid left right ≤ right := by
  have h1 : (right - left) / 2 ≤ right - left := Int.ediv_le_self _ (by omega)
  unfold bsMid
  omega

theorem buildEntries_length (rs : List Record) (i : Nat) :
    (buildEntries rs i).length = rs.length := by
  induction rs generalizing i with
  | nil => rfl
  | cons r rest ih => simp [buildEntries, ih]

theorem buildEntries_getElem? (rs : List Record) (i j : Nat) :
    (buildEntries rs i)[j]? =
      (rs[j]?).map (fun r => IndexRecord.mk r.osm_id (i + j)) := by
  induction rs generalizing i j with
  | nil => simp [buildEntries]
  | cons r rest ih =>
    cases j with
    | zero => simp [buildEntries]
    | succ j =>
      simp only [buildEntries, List.getElem?_cons_succ, ih (i + 1) j]
      have h : i + 1 + j = i + (j + 1) := by omega
      rw [h]

theorem mem_buildEntries (rs : List Record) (e : IndexRecord) :
    e ∈ buildEntries rs 0 ↔
      ∃ r, rs[e.record]? = some r ∧ r.osm_id = e.osm_id := by
  constructor
  · intro hm
    rcases List.mem_iff_getElem?.1 hm with ⟨j, hj⟩
    rw [buildEntries_getElem?] at hj
    rcases Option.map_eq_some'.1 hj with ⟨r, hr, hre⟩
    refine ⟨r, ?_, ?_⟩
    · rw [← hre]
      simpa using hr
    · rw [← hre]
  · rintro ⟨r, hr, hid⟩
    apply List.mem_iff_getElem?.2
    refine ⟨e.record, ?_⟩
    rw [buildEntries_getElem?, hr]
    simp only [Option.map_some', Option.some.injEq]
    cases e
    simp_all

theorem irLe_trans (a b c : IndexRecord) (hab : irLe a b = true)
    (hbc : irLe b c = true) : irLe a c = true := by
  simp only [irLe, compare_index_records, decide_eq_true_eq] at *
  split_ifs at * <;> omega

theorem irLe_total (a b : IndexRecord) : (irLe a b || irLe b a) = true := by
  simp only [irLe, compare_index_records, Bool.or_eq_true, decide_eq_true_eq]
  split_ifs <;> omega

theorem irLe_eq_true_iff (a b : IndexRecord) :
    irLe a b = true ↔ a.osm_id ≤ b.osm_id := by
  simp only [irLe, compare_index_records, decide_eq_true_eq]
  split_ifs <;> omega

theorem mk_indexed_length (rs : List Record) :
    (mk_indexed rs).irs.length = rs.length := by
  simp [mk_indexed, List.length_mergeSort, buildEntries_length]

theorem mem_mk_indexed (rs : List Record) (e : IndexRecord) :
    e ∈ (mk_indexed rs).irs ↔ e ∈ buildEntries rs 0 := by
  simp [mk_indexed, List.mem_mergeSort]

/-- C3's invariant in pairwise form: after `build` the entry sequence is
non-decreasing by identifier. -/
theorem mk_indexed_pairwise (rs : List Record) :
    List.Pairwise (fun a b : IndexRecord => a.osm_id ≤ b.osm_id)
      (mk_indexed rs).irs := by
  have h := @List.sorted_mergeSort IndexRecord irLe irLe_trans irLe_total
    (buildEntries rs 0)
  exact h.imp (fun hab => (irLe_eq_true_iff _ _).1 hab)

theorem sorted_getElem?_mono {l : List IndexRecord}
    (h : List.Pairwise (fun a b : IndexRecord => a.osm_id ≤ b.osm_id) l)
    {i j : Nat} {ei ej : IndexRecord} (hij : i ≤ j)
    (hi : l[i]? = some ei) (hj : l[j]? = some ej) :
    ei.osm_id ≤ ej.osm_id := by
  rcases List.getElem?_eq_some_iff.1 hi with ⟨hi', rfl⟩
  rcases List.getElem?_eq_some_iff.1 hj with ⟨hj', rfl⟩
  rcases Nat.lt_or_ge i j with hlt | hge
  · have := List.pairwise_iff_get.1 h ⟨i, hi'⟩ ⟨j, hj'⟩ hlt
    simpa using this
  · have hij' : i = j := by omega
    subst hij'
    exact le_refl _

/-- Soundness of the binary-search loop: any record reference it returns
comes from an entry of the index whose identifier is the needle. -/
theorem lookupGo_sound (irs : List IndexRecord) (needle : Int) :
    ∀ left right p, lookupGo irs needle left right = some p →
      ∃ e, e ∈ irs ∧ e.osm_id = needle ∧ e.record = p := by
  intro left right
  induction left, right using lookupGo.induct irs needle with
  | case1 left right hlr e he h1 =>
    intro p hp
    rw [lookupGo, if_pos hlr, he] at hp
    simp only [if_pos h1] at hp
    exact ⟨e, getElem?_some_mem he, h1, by injection hp⟩
  | case2 left right hlr e he h1 h2 ih =>
    intro p hp
    rw [lookupGo, if_pos hlr, he] at hp
    simp only [if_neg h1, if_pos h2] at hp
    exact ih p hp
  | case3 left right hlr e he h1 h2 ih =>
    intro p hp
    rw [lookupGo, if_pos hlr, he] at hp
    simp only [if_neg h1, if_neg h2] at hp
    exact ih p hp
  | case4 left right hlr he =>
    intro p hp
    rw [lookupGo, if_pos hlr, he] at hp
    simp at hp
  | case5 left right hlr =>
    intro p hp
    rw [lookupGo, if_neg hlr] at hp
    simp at hp

/-- Completeness of the binary-search loop on a sorted index: if some entry
inside the candidate range carries the needle, the loop finds a match. -/
theorem lookupGo_complete (irs : List IndexRecord) (needle : Int)
    (hs : List.Pairwise (fun a b : IndexRecord => a.osm_id ≤ b.osm_id) irs) :
    ∀ left right, 0 ≤ left → right < (irs.length : Int) →
      (∃ k : Nat, left ≤ (k : Int) ∧ (k : Int) ≤ right ∧
        ∃ ek, irs[k]? = some ek ∧ ek.osm_id = needle) →
      ∃ p, lookupGo irs needle left right = some p := by
  intro left right
  induction left, right using lookupGo.induct irs needle with
  | case1 left right hlr e he h1 =>
    intro _ _ _
    exact ⟨e.record, by rw [lookupGo, if_pos hlr, he]; simp only [if_pos h1]⟩
  | case2 left right hlr e he h1 h2 ih =>
    rintro h0 hlen ⟨k, hk1, hk2, ek, hek, hekid⟩
    have hmid0 : 0 ≤ bsMid left right := le_trans h0 (bsMid_ge hlr)
    have hknew : bsMid left right + 1 ≤ (k : Int) := by
      by_contra hcon
      have hkm : k ≤ (bsMid left right).toNat := by omega
      have := sorted_getElem?_mono hs hkm hek he
      omega
    have hres := ih (by omega) hlen ⟨k, hknew, hk2, ek, hek, hekid⟩
    rcases hres with ⟨p, hp⟩
    refine ⟨p, ?_⟩
    rw [lookupGo, if_pos hlr, he]
    simpa only [if_neg h1, if_pos h2] using hp
  | case3 left right hlr e he h1 h2 ih =>
    rintro h0 hlen ⟨k, hk1, hk2, ek, hek, hekid⟩
    have hmid0 : 0 ≤ bsMid left right := le_trans h0 (bsMid_ge hlr)
    have hmidr : bsMid left right ≤ right := bsMid_le hlr
    have hknew : (k : Int) ≤ bsMid left right - 1 := by
      by_contra hcon
      have hkm : (bsMid left right).toNat ≤ k := by omega
      have := sorted_getElem?_mono hs hkm he hek
      omega
    have hres := ih h0 (by omega) ⟨k, hk1, hknew, ek, hek, hekid⟩
    rcases hres with ⟨p, hp⟩
    refine ⟨p, ?_⟩
    rw [lookupGo, if_pos hlr, he]
    simpa only [if_neg h1, if_neg h2] using hp
  | case4 left right hlr he =>
    rintro h0 hlen ⟨k, hk1, hk2, ek, hek, hekid⟩
    have hmid0 : 0 ≤ bsMid left right := le_trans h0 (bsMid_ge hlr)
    have hmidr : bsMid left right ≤ right := bsMid_le hlr
    have hnone := List.getElem?_eq_none_iff.1 he
    omega
  | case5 left right hlr =>
    rintro h0 hlen ⟨k, hk1, hk2, ek, hek, hekid⟩
    omega

/-- Loop invariant of `lookup_naive`: starting from accumulator
`(ci, distSq rs[ci])` where the accumulator already beats every record before
index `k` (strictly beats every record before `ci`), the loop over the
records from index `k` on returns the index of a record at minimal squared
distance, the earliest one in store order among those at that distance. -/
theorem naiveGo_invariant (lon lat : Rat) (rs : List Record) :
    ∀ (l : List Record) (k ci : Nat) (cd : Rat) (rc : Record),
      rs.drop k = l → k ≤ rs.length → ci < k →
      rs[ci]? = some rc → cd = distSq rc lon lat →
      (∀ (j : Nat) (rj : Record),
        j < k → rs[j]? = some rj → cd ≤ distSq rj lon lat) →
      (∀ (j : Nat) (rj : Record),
        j < ci → rs[j]? = some rj → cd < distSq rj lon lat) →
      ∃ rr, rs[(naiveGo lon lat (enumFrom k l) (ci, cd)).1]? = some rr ∧
        (naiveGo lon lat (enumFrom k l) (ci, cd)).2 = distSq rr lon lat ∧
        (∀ (j : Nat) (rj : Record), rs[j]? = some rj →
          distSq rr lon lat ≤ distSq rj lon lat) ∧
        (∀ (j : Nat) (rj : Record),
          j < (naiveGo lon lat (enumFrom k l) (ci, cd)).1 →
          rs[j]? = some rj → distSq rr lon lat < distSq rj lon lat) := by
  intro l
  induction l with
  | nil =>
    intro k ci cd rc hdrop hk hci hrc hcd hle hlt
    have hklen : k = rs.length := by
      have := List.length_drop k rs
      rw [hdrop] at this
      simp at this
      omega
    refine ⟨rc, ?_, ?_, ?_, ?_⟩
    · simpa [enumFrom, naiveGo] using hrc
    · simpa [enumFrom, naiveGo] using hcd
    · intro j rj hj
      have hjlen : j < rs.length := List.getElem?_eq_some_iff.1 hj |>.1
      have := hle j rj (by omega) hj
      simpa [enumFrom, naiveGo, ← hcd] using this
    · intro j rj hjci hj
      simp only [enumFrom, naiveGo] at hjci
      have := hlt j rj hjci hj
      simpa [enumFrom, naiveGo, ← hcd] using this
  | cons r l' ih =>
    intro k ci cd rc hdrop hk hci hrc hcd hle hlt
    have hklen : k < rs.length := by
      have := List.length_drop k rs
      rw [hdrop] at this
      simp at this
      omega
    have hrk : rs[k]? = some r := by
      have h0 : (rs.drop k)[0]? = rs[k]? := by
        simp [List.getElem?_drop rs k 0]
      rw [hdrop] at h0
      simpa using h0.symm
    have hdrop' : rs.drop (k + 1) = l' := by
      have : rs.drop (k + 1) = (rs.drop k).drop 1 := by
        rw [List.drop_drop]
      rw [this, hdrop]
      rfl
    rw [show enumFrom k (r :: l') = (k, r) :: enumFrom (k + 1) l' from rfl]
    rw [show naiveGo lon lat ((k, r) :: enumFrom (k + 1) l') (ci, cd) =
      naiveGo lon lat (enumFrom (k + 1) l')
        (if distSq r lon lat < cd then (k, distSq r lon lat) else (ci, cd))
      from rfl]
    by_cases hd : distSq r lon lat < cd
    · rw [if_pos hd]
      apply ih (k + 1) k (distSq r lon lat) r hdrop' (by omega) (by omega)
        hrk rfl
      · intro j rj hj hjr
        rcases Nat.lt_or_ge j k with hjk | hjk
        · exact le_of_lt (lt_of_lt_of_le hd (hle j rj hjk hjr))
        · have hjeq : j = k := by omega
          subst hjeq
          rw [hrk] at hjr
          injection hjr with hjr
          subst hjr
          exact le_refl _
      · intro j rj hj hjr
        exact lt_of_lt_of_le hd (hle j rj (by omega) hjr)
    · rw [if_neg hd]
      apply ih (k + 1) ci cd rc hdrop' (by omega) (by omega) hrc hcd
      · intro j rj hj hjr
        rcases Nat.lt_or_ge j k with hjk | hjk
        · exact hle j rj hjk hjr
        · have hjeq : j = k := by omega
          subst hjeq
          rw [hrk] at hjr
          injection hjr with hjr
          subst hjr
          exact le_of_not_lt hd
      · exact hlt

/-- Linear Scanner scan: a returned index is the first match at or after the
scan start, offset consistently. -/
theorem lookup_id_go_some (needle : Int) (rs : List Record) :
    ∀ i p, lookup_id_go needle i rs = some p →
      ∃ (j : Nat) (r : Record), p = i + j ∧ rs[j]? = some r ∧
        r.osm_id = needle ∧
        ∀ (j' : Nat) (r' : Record),
          j' < j → rs[j']? = some r' → r'.osm_id ≠ needle := by
  induction rs with
  | nil => intro i p hp; simp [lookup_id_go] at hp
  | cons r rest ih =>
    intro i p hp
    rw [lookup_id_go] at hp
    by_cases hid : r.osm_id = needle
    · rw [if_pos hid] at hp
      injection hp with hp
      exact ⟨0, r, by omega, by simp, hid, by omega⟩
    · rw [if_neg hid] at hp
      rcases ih (i + 1) p hp with ⟨j, r', hpj, hj, hid', hfirst⟩
      refine ⟨j + 1, r', by omega, by simpa using hj, hid', ?_⟩
      intro j' r'' hj' hj''
      cases j' with
      | zero =>
        simp at hj''
        subst hj''
        exact hid
      | succ j' =>
        exact hfirst j' r'' (by omega) (by simpa using hj'')

/-- Linear Scanner scan: "not found" exactly when no record from the scan
start on matches. -/
theorem lookup_id_go_none (needle : Int) (rs : List Record) :
    ∀ i, lookup_id_go needle i rs = none ↔
      ∀ (j : Nat) (r : Record), rs[j]? = some r → r.osm_id ≠ needle := by
  induction rs with
  | nil => intro i; simp [lookup_id_go]
  | cons r rest ih =>
    intro i
    rw [lookup_id_go]
    by_cases hid : r.osm_id = needle
    · rw [if_pos hid]
      constructor
      · intro h
        simp at h
      · intro hall
        exact absurd hid (hall 0 r (by simp))
    · rw [if_neg hid]
      rw [ih (i + 1)]
      constructor
      · intro hall j r' hj
        cases j with
        | zero => simp at hj; subst hj; exact hid
        | succ j => exact hall j r' (by simpa using hj)
      · intro hall j r' hj
        exact hall (j + 1) r' (by simpa using hj)

/-- Compact Index scan: a returned record reference comes from the first
matching entry. -/
theorem lookup_compact_go_some (needle : Int) (irs : List IndexRecord) :
    ∀ p, lookup_compact_go needle irs = some p →
      ∃ (j : Nat) (e : IndexRecord), irs[j]? = some e ∧ e.osm_id = needle ∧
        e.record = p ∧
        ∀ (j' : Nat) (e' : IndexRecord),
          j' < j → irs[j']? = some e' → e'.osm_id ≠ needle := by
  induction irs with
  | nil => intro p hp; simp [lookup_compact_go] at hp
  | cons e rest ih =>
    intro p hp
    rw [lookup_compact_go] at hp
    by_cases hid : e.osm_id = needle
    · rw [if_pos hid] at hp
      injection hp with hp
      exact ⟨0, e, by simp, hid, hp, by omega⟩
    · rw [if_neg hid] at hp
      rcases ih p hp with ⟨j, e', hj, hid', hrec, hfirst⟩
      refine ⟨j + 1, e', by simpa using hj, hid', hrec, ?_⟩
      intro j' e'' hj' hj''
      cases j' with
      | zero => simp at hj''; subst hj''; exact hid
      | succ j' => exact hfirst j' e'' (by omega) (by simpa using hj'')

/-- Compact Index scan: "not found" exactly when no entry matches. -/
theorem lookup_compact_go_none (needle : Int) (irs : List IndexRecord) :
    lookup_compact_go needle irs = none ↔
      ∀ (j : Nat) (e : IndexRecord), irs[j]? = some e → e.osm_id ≠ needle := by
  induction irs with
  | nil => simp [lookup_compact_go]
  | cons e rest ih =>
    rw [lookup_compact_go]
    by_cases hid : e.osm_id = needle
    · rw [if_pos hid]
      constructor
      · intro h
        simp at h
      · intro hall
        exact absurd hid (hall 0 e (by simp))
    · rw [if_neg hid, ih]
      constructor
      · intro hall j e' hj
        cases j with
        | zero => simp at hj; subst hj; exact hid
        | succ j => exact hall j e' (by simpa using hj)
      · intro hall j e' hj
        exact hall (j + 1) e' (by simpa using hj)

/-- If some record of the store carries identifier `k`, so does some entry of
the unsorted entry array. -/
theorem buildEntries_id_present (rs : List Record) (k : Int)
    (hpres : ∃ (j : Nat) (r : Record), rs[j]? = some r ∧ r.osm_id = k) :
    ∃ (j : Nat) (e : IndexRecord),
      (buildEntries rs 0)[j]? = some e ∧ e.osm_id = k := by
  rcases hpres with ⟨j, r, hj, hid⟩
  refine ⟨j, IndexRecord.mk r.osm_id j, ?_, hid⟩
  rw [buildEntries_getElem?, hj]
  simp

/-- Sorted Index, found case: when a record with identifier `k` exists,
`lookup_indexed` returns a reference to a record whose identifier is `k`. -/
theorem lookup_indexed_found (rs : List Record) (k : Int)
    (hpres : ∃ (j : Nat) (r : Record), rs[j]? = some r ∧ r.osm_id = k) :
    ∃ (p : Nat) (r : Record), lookup_indexed (mk_indexed rs) k = some p ∧
      rs[p]? = some r ∧ r.osm_id = k := by
  rcases buildEntries_id_present rs k hpres with ⟨j, e, hj, hid⟩
  have hmem : e ∈ (mk_indexed rs).irs :=
    (mem_mk_indexed rs e).2 (getElem?_some_mem hj)
  rcases List.mem_iff_getElem?.1 hmem with ⟨ki, hki⟩
  have hkilen : ki < (mk_indexed rs).irs.length :=
    (List.getElem?_eq_some_iff.1 hki).1
  have hcomp := lookupGo_complete (mk_indexed rs).irs k (mk_indexed_pairwise rs)
    0 ((rs.length : Int) - 1) (by omega)
    (by rw [mk_indexed_length]; omega)
    ⟨ki, by omega, by rw [mk_indexed_length] at hkilen; omega, e, hki, hid⟩
  rcases hcomp with ⟨p, hp⟩
  have hsound := lookupGo_sound (mk_indexed rs).irs k 0 ((rs.length : Int) - 1)
    p hp
  rcases hsound with ⟨e', hmem', hid', hrec'⟩
  have hbe := (mem_mk_indexed rs e').1 hmem'
  rcases (mem_buildEntries rs e').1 hbe with ⟨r', hr', hrid'⟩
  exact ⟨p, r', hp, hrec' ▸ hr', by omega⟩

/-- Sorted Index, absent case: when no record carries identifier `k`,
`lookup_indexed` reports "not found". -/
theorem lookup_indexed_notfound (rs : List Record) (k : Int)
    (habs : ∀ (j : Nat) (r : Record), rs[j]? = some r → r.osm_id ≠ k) :
    lookup_indexed (mk_indexed rs) k = none := by
  cases hres : lookup_indexed (mk_indexed rs) k with
  | none => rfl
  | some p =>
    exfalso
    rcases lookupGo_sound (mk_indexed rs).irs k 0 ((rs.length : Int) - 1) p
      hres with ⟨e, hmem, hid, hrec⟩
    rcases (mem_buildEntries rs e).1 ((mem_mk_indexed rs e).1 hmem) with
      ⟨r, hr, hrid⟩
    exact habs e.record r hr (by omega)

/-- Linear Scanner, found case. -/
theorem lookup_id_naive_found (rs : List Record) (k : Int)
    (hpres : ∃ (j : Nat) (r : Record), rs[j]? = some r ∧ r.osm_id = k) :
    ∃ (i : Nat) (r : Record), lookup_id_naive rs k = some i ∧
      rs[i]? = some r ∧ r.osm_id = k := by
  cases hres : lookup_id_naive rs k with
  | none =>
    exfalso
    rcases hpres with ⟨j, r, hj, hid⟩
    exact (lookup_id_go_none k rs 0).1 hres j r hj hid
  | some i =>
    rcases lookup_id_go_some k rs 0 i hres with ⟨j, r, hij, hj, hid, _⟩
    exact ⟨i, r, rfl, by rw [hij]; simpa using hj, hid⟩

/-- Linear Scanner, absent case. -/
theorem lookup_id_naive_notfound (rs : List Record) (k : Int)
    (habs : ∀ (j : Nat) (r : Record), rs[j]? = some r → r.osm_id ≠ k) :
    lookup_id_naive rs k = none :=
  (lookup_id_go_none k rs 0).2 habs

/-- Compact Index, found case. -/
theorem lookup_compact_found (rs : List Record) (k : Int)
    (hpres : ∃ (j : Nat) (r : Record), rs[j]? = some r ∧ r.osm_id = k) :
    ∃ (p : Nat) (r : Record), lookup_compact (mk_compact rs) k = some p ∧
      rs[p]? = some r ∧ r.osm_id = k := by
  cases hres : lookup_compact (mk_compact rs) k with
  | none =>
    exfalso
    rcases buildEntries_id_present rs k hpres with ⟨j, e, hj, hid⟩
    exact (lookup_compact_go_none k (buildEntries rs 0)).1 hres j e hj hid
  | some p =>
    rcases lookup_compact_go_some k (buildEntries rs 0) p hres with
      ⟨j, e, hj, hid, hrec, _⟩
    rcases (mem_buildEntries rs e).1 (getElem?_some_mem hj) with ⟨r, hr, hrid⟩
    exact ⟨p, r, rfl, hrec ▸ hr, by omega⟩

/-- Compact Index, absent case. -/
theorem lookup_compact_notfound (rs : List Record) (k : Int)
    (habs : ∀ (j : Nat) (r : Record), rs[j]? = some r → r.osm_id ≠ k) :
    lookup_compact (mk_compact rs) k = none := by
  apply (lookup_compact_go_none k (buildEntries rs 0)).2
  intro j e hj hid
  rcases (mem_buildEntries rs e).1 (getElem?_some_mem hj) with ⟨r, hr, hrid⟩
  exact habs e.record r hr (by omega)

/-! ## Claim theorems -/

/-- C1: for every record set `R` and identifier `k`, `lookup_indexed` on an
index built by `mk_indexed` from `R` returns a record whose identifier equals
`k` whenever some record of `R` has identifier `k`, and returns "not found"
(`none`, modelling NULL) whenever no record of `R` has identifier `k`. -/
theorem C1_lookup_indexed_correct (rs : List Record) (k : Int) :
    ((∃ (j : Nat) (r : Record), rs[j]? = some r ∧ r.osm_id = k) →
      ∃ (p : Nat) (r : Record), lookup_indexed (mk_indexed rs) k = some p ∧
        rs[p]? = some r ∧ r.osm_id = k) ∧
    ((∀ (j : Nat) (r : Record), rs[j]? = some r → r.osm_id ≠ k) →
      lookup_indexed (mk_indexed rs) k = none) :=
  ⟨lookup_indexed_found rs k, lookup_indexed_notfound rs k⟩

/-- C1 witness: on the two-record demo store, identifier 45 is found with the
right identifier and 99999 is reported "not found". -/
theorem C1_lookup_indexed_correct_witness :
    (∃ (p : Nat) (r : Record),
      lookup_indexed
        (mk_indexed [⟨45, 1, 2, "Douglas Road"⟩, ⟨1337, 3, 4, "Main Street"⟩])
        45 = some p ∧
      [Record.mk 45 1 2 "Douglas Road",
        Record.mk 1337 3 4 "Main Street"][p]? = some r ∧ r.osm_id = 45) ∧
    lookup_indexed
      (mk_indexed [⟨45, 1, 2, "Douglas Road"⟩, ⟨1337, 3, 4, "Main Street"⟩])
      99999 = none :=
  ⟨(C1_lookup_indexed_correct _ 45).1 ⟨0, Record.mk 45 1 2 "Douglas Road",
      rfl, rfl⟩,
    (C1_lookup_indexed_correct _ 99999).2 (by
      intro j r hj
      have hor := getElem?_some_mem hj
      simp only [List.mem_cons, List.not_mem_nil, or_false] at hor
      rcases hor with h | h <;> subst h <;> decide)⟩

/-- C3: after `mk_indexed` completes, the internal Index Entry array is
sorted non-decreasingly by identifier. (In the embedding the structure is
immutable, as in the C code no operation after the build writes to the entry
array, so the invariant holds for the lifetime of the structure.) -/
theorem C3_sorted_index_invariant (rs : List Record) :
    List.Sorted (fun a b : IndexRecord => a.osm_id ≤ b.osm_id)
      (mk_indexed rs).irs :=
  mk_indexed_pairwise rs

/-- C4: whenever an allocation fails inside `mk_indexed`, the call returns a
null handle, every allocation already made within the call has been released
(no block is retained), and a failure is exactly an allocation failure. -/
theorem C4_alloc_failure_clean (a1 a2 : Bool) (rs : List Record)
    (h : (mk_indexed_allocs a1 a2 rs).1 = none) :
    retainedBlocks (mk_indexed_allocs a1 a2 rs).2 = [] ∧
      (a1 = false ∨ a2 = false) := by
  cases a1 <;> cases a2 <;>
    simp_all [mk_indexed_allocs, retainedBlocks]

/-- C4 witness: the second `malloc` failing on the demo store. -/
theorem C4_alloc_failure_clean_witness :
    (mk_indexed_allocs true false [Record.mk 45 1 2 "Douglas Road"]).1 =
      none ∧
    retainedBlocks
      (mk_indexed_allocs true false [Record.mk 45 1 2 "Douglas Road"]).2 =
      [] ∧
    (true = false ∨ false = false) :=
  ⟨by decide,
    C4_alloc_failure_clean true false [Record.mk 45 1 2 "Douglas Road"]
      (by decide)⟩

/-- C5: with the empty record set every build succeeds with a usable handle
(given that its allocations succeed), and every lookup — sorted index,
coordinate scanner, linear scanner, compact index — reports "not found". -/
theorem C5_empty_store (k : Int) (lon lat : Rat) :
    (mk_indexed_allocs true true []).1 = some (mk_indexed []) ∧
    (mk_naive_allocs true []).1 = some (mk_naive []) ∧
    lookup_indexed (mk_indexed []) k = none ∧
    lookup_naive (mk_naive []) lon lat = none ∧
    lookup_id_naive [] k = none ∧
    lookup_compact (mk_compact []) k = none := by
  refine ⟨rfl, rfl, ?_, rfl, rfl, rfl⟩
  have hmk : mk_indexed ([] : List Record) = { irs := [], n := 0 } := by
    simp [mk_indexed, buildEntries]
  rw [hmk, lookup_indexed, lookupGo]
  norm_num

/-- C8: the Coordinate Scanner lookup returns "not found" exactly when the
record sequence is empty; every non-empty store yields some record. -/
theorem C8_naive_none_iff_empty (data : NaiveData) (lon lat : Rat) :
    lookup_naive data lon lat = none ↔ data.rs = [] := by
  cases data with
  | mk rs => cases rs <;> simp [lookup_naive]

/-- C9 (Linear Scanner modelled from the spec): the scan returns the first
record in store order whose identifier equals the query, also under duplicate
identifiers, and "not found" exactly when the sequence is empty or exhausted
without a match. -/
theorem C9_linear_scanner_first_match (rs : List Record) (k : Int) :
    (∀ i : Nat, lookup_id_naive rs k = some i →
      ∃ r, rs[i]? = some r ∧ r.osm_id = k ∧
        ∀ (j : Nat) (rj : Record), j < i → rs[j]? = some rj →
          rj.osm_id ≠ k) ∧
    (lookup_id_naive rs k = none ↔
      ∀ (j : Nat) (r : Record), rs[j]? = some r → r.osm_id ≠ k) := by
  constructor
  · intro i hi
    rcases lookup_id_go_some k rs 0 i hi with ⟨j, r, hij, hj, hid, hfirst⟩
    have hij' : i = j := by omega
    subst hij'
    exact ⟨r, hj, hid, fun j' rj hj' hjr => hfirst j' rj hj' hjr⟩
  · exact lookup_id_go_none k rs 0

/-- C9 witness: duplicate identifier 45 — the first occurrence (index 0) is
returned; absent identifier 7 is "not found". -/
theorem C9_linear_scanner_first_match_witness :
    (∀ i : Nat,
      lookup_id_naive [⟨45, 1, 2, "a"⟩, ⟨45, 3, 4, "b"⟩] 45 = some i →
      ∃ r, [Record.mk 45 1 2 "a", Record.mk 45 3 4 "b"][i]? = some r ∧
        r.osm_id = 45 ∧
        ∀ (j : Nat) (rj : Record), j < i →
          [Record.mk 45 1 2 "a", Record.mk 45 3 4 "b"][j]? = some rj →
          rj.osm_id ≠ 45) ∧
    (lookup_id_naive [⟨45, 1, 2, "a"⟩, ⟨45, 3, 4, "b"⟩] 7 = none ↔
      ∀ (j : Nat) (r : Record),
        [Record.mk 45 1 2 "a", Record.mk 45 3 4 "b"][j]? = some r →
        r.osm_id ≠ 7) :=
  ⟨(C9_linear_scanner_first_match [⟨45, 1, 2, "a"⟩, ⟨45, 3, 4, "b"⟩] 45).1,
    (C9_linear_scanner_first_match [⟨45, 1, 2, "a"⟩, ⟨45, 3, 4, "b"⟩] 7).2⟩

/-- C10: in each iteration of the binary-search loop with a non-empty
candidate range the range strictly shrinks — both possible recursive calls of
`lookupGo` have a strictly smaller `right − left`, and the `Nat` measure
`(right + 1 − left).toNat` strictly decreases — so the loop terminates after
finitely many steps. -/
theorem C10_binary_search_range_shrinks (left right : Int)
    (h : left ≤ right) :
    right - (bsMid left right + 1) < right - left ∧
    bsMid left right - 1 - left < right - left ∧
    (right + 1 - (bsMid left right + 1)).toNat <
      (right + 1 - left).toNat ∧
    (bsMid left right - 1 + 1 - left).toNat < (right + 1 - left).toNat := by
  have h1 := bsMid_ge h
  have h2 := bsMid_le h
  omega

/-- C10 witness: the range `[0, 5]`. -/
theorem C10_binary_search_range_shrinks_witness :
    5 - (bsMid 0 5 + 1) < 5 - 0 ∧
    bsMid 0 5 - 1 - 0 < 5 - 0 ∧
    ((5 : Int) + 1 - (bsMid 0 5 + 1)).toNat < ((5 : Int) + 1 - 0).toNat ∧
    (bsMid 0 5 - 1 + 1 - 0).toNat < ((5 : Int) + 1 - 0).toNat :=
  C10_binary_search_range_shrinks 0 5 (by decide)

/-- C2: on every non-empty record set the Coordinate Scanner returns a record
whose squared planar distance to the query is ≤ that of every record of the
set, and on ties the record appearing earliest in store order wins (every
record strictly before the returned one is strictly farther). -/
theorem C2_coord_scanner_argmin (rs : List Record) (h : rs ≠ [])
    (lon lat : Rat) :
    ∃ (i : Nat) (r : Record), lookup_naive (mk_naive rs) lon lat = some i ∧
      rs[i]? = some r ∧
      (∀ (j : Nat) (rj : Record), rs[j]? = some rj →
        distSq r lon lat ≤ distSq rj lon lat) ∧
      (∀ (j : Nat) (rj : Record), j < i → rs[j]? = some rj →
        distSq r lon lat < distSq rj lon lat) := by
  match rs, h with
  | r0 :: rest, _ =>
    have hinv := naiveGo_invariant lon lat (r0 :: rest) rest 1 0
      (distSq r0 lon lat) r0 rfl (by simp) (by omega) (by simp) rfl
      (by
        intro j rj hj hjr
        have hj0 : j = 0 := by omega
        subst hj0
        simp only [List.getElem?_cons_zero, Option.some.injEq] at hjr
        subst hjr
        exact le_refl _)
      (by intro j rj hj hjr; omega)
    rcases hinv with ⟨rr, h1, h2, h3, h4⟩
    exact ⟨_, rr, rfl, h1, h3, h4⟩

/-- C2 witness: on a two-record store with a duplicate-distance layout the
scan from the origin returns record 1, the strictly closer one. -/
theorem C2_coord_scanner_argmin_witness :
    ([Record.mk 1 10 10 "a", Record.mk 2 3 4 "b"] ≠ []) ∧
    ∃ (i : Nat) (r : Record),
      lookup_naive (mk_naive [⟨1, 10, 10, "a"⟩, ⟨2, 3, 4, "b"⟩]) 0 0 =
        some i ∧
      [Record.mk 1 10 10 "a", Record.mk 2 3 4 "b"][i]? = some r ∧
      (∀ (j : Nat) (rj : Record),
        [Record.mk 1 10 10 "a", Record.mk 2 3 4 "b"][j]? = some rj →
        distSq r 0 0 ≤ distSq rj 0 0) ∧
      (∀ (j : Nat) (rj : Record), j < i →
        [Record.mk 1 10 10 "a", Record.mk 2 3 4 "b"][j]? = some rj →
        distSq r 0 0 < distSq rj 0 0) :=
  ⟨by decide,
    C2_coord_scanner_argmin [⟨1, 10, 10, "a"⟩, ⟨2, 3, 4, "b"⟩] (by decide)
      0 0⟩

/-- C6: for a record set without duplicate identifiers, Linear Scanner,
Compact Index and Sorted Index agree on every query: all three report "not
found" together, or all three return records carrying the query identifier
(hence identical identifiers). Linear Scanner and Compact Index are modelled
from the spec, their sources being absent. -/
theorem C6_cross_implementation_agreement (rs : List Record)
    (_hnd : List.Pairwise (fun a b : Record => a.osm_id ≠ b.osm_id) rs)
    (k : Int) :
    (lookup_id_naive rs k = none ∧ lookup_compact (mk_compact rs) k = none ∧
      lookup_indexed (mk_indexed rs) k = none) ∨
    (∃ (i j l : Nat) (ri rj rl : Record),
      lookup_id_naive rs k = some i ∧
      lookup_compact (mk_compact rs) k = some j ∧
      lookup_indexed (mk_indexed rs) k = some l ∧
      rs[i]? = some ri ∧ rs[j]? = some rj ∧ rs[l]? = some rl ∧
      ri.osm_id = k ∧ rj.osm_id = k ∧ rl.osm_id = k) := by
  by_cases hpres : ∃ (j : Nat) (r : Record), rs[j]? = some r ∧ r.osm_id = k
  · right
    rcases lookup_id_naive_found rs k hpres with ⟨i, ri, h1, h2, h3⟩
    rcases lookup_compact_found rs k hpres with ⟨j, rj, h4, h5, h6⟩
    rcases lookup_indexed_found rs k hpres with ⟨l, rl, h7, h8, h9⟩
    exact ⟨i, j, l, ri, rj, rl, h1, h4, h7, h2, h5, h8, h3, h6, h9⟩
  · left
    push_neg at hpres
    exact ⟨lookup_id_naive_notfound rs k hpres,
      lookup_compact_notfound rs k hpres,
      lookup_indexed_notfound rs k hpres⟩

/-- C6 witness: the demo store with distinct identifiers 45 and 1337,
queried for 45. -/
theorem C6_cross_implementation_agreement_witness :
    (lookup_id_naive [⟨45, 1, 2, "a"⟩, ⟨1337, 3, 4, "b"⟩] 45 = none ∧
      lookup_compact (mk_compact [⟨45, 1, 2, "a"⟩, ⟨1337, 3, 4, "b"⟩]) 45 =
        none ∧
      lookup_indexed (mk_indexed [⟨45, 1, 2, "a"⟩, ⟨1337, 3, 4, "b"⟩]) 45 =
        none) ∨
    (∃ (i j l : Nat) (ri rj rl : Record),
      lookup_id_naive [⟨45, 1, 2, "a"⟩, ⟨1337, 3, 4, "b"⟩] 45 = some i ∧
      lookup_compact (mk_compact [⟨45, 1, 2, "a"⟩, ⟨1337, 3, 4, "b"⟩]) 45 =
        some j ∧
      lookup_indexed (mk_indexed [⟨45, 1, 2, "a"⟩, ⟨1337, 3, 4, "b"⟩]) 45 =
        some l ∧
      [Record.mk 45 1 2 "a", Record.mk 1337 3 4 "b"][i]? = some ri ∧
      [Record.mk 45 1 2 "a", Record.mk 1337 3 4 "b"][j]? = some rj ∧
      [Record.mk 45 1 2 "a", Record.mk 1337 3 4 "b"][l]? = some rl ∧
      ri.osm_id = 45 ∧ rj.osm_id = 45 ∧ rl.osm_id = 45) :=
  C6_cross_implementation_agreement [⟨45, 1, 2, "a"⟩, ⟨1337, 3, 4, "b"⟩]
    (by decide) 45

/-- C7: `lookup_indexed`'s loop is the canonical iterative binary search on
the closed range `[left, right]`: with `0 ≤ left` and `right < n ≤ 2³¹ − 1`
(the index type's range) the midpoint `left + (right − left) / 2` stays
within `[left, right] ⊆ [0, n)`, so the expression never overflows `int`;
the loop returns the record reference immediately on an identifier match,
moves `left` to `mid + 1` when the probed identifier is smaller than the
target, moves `right` to `mid − 1` when it is larger, and answers "not
found" as soon as `left > right`. -/
theorem C7_canonical_binary_search (irs : List IndexRecord) (needle : Int)
    (left right n : Int) (h0 : 0 ≤ left) (hrn : right < n)
    (hn : n ≤ 2 ^ 31 - 1) :
    (left ≤ right →
      (0 ≤ right - left ∧ right - left ≤ 2 ^ 31 - 1 ∧
        left ≤ bsMid left right ∧ bsMid left right ≤ right ∧
        0 ≤ bsMid left right ∧ bsMid left right < n) ∧
      ∀ e : IndexRecord, irs[(bsMid left right).toNat]? = some e →
        (e.osm_id = needle →
          lookupGo irs needle left right = some e.record) ∧
        (e.osm_id < needle →
          lookupGo irs needle left right =
            lookupGo irs needle (bsMid left right + 1) right) ∧
        (needle < e.osm_id →
          lookupGo irs needle left right =
            lookupGo irs needle left (bsMid left right - 1))) ∧
    (right < left → lookupGo irs needle left right = none) := by
  constructor
  · intro hlr
    have h1 := bsMid_ge hlr
    have h2 := bsMid_le hlr
    refine ⟨⟨by omega, by omega, h1, h2, by omega, by omega⟩, ?_⟩
    intro e he
    refine ⟨?_, ?_, ?_⟩
    · intro hid
      rw [lookupGo, if_pos hlr, he]
      simp only [if_pos hid]
    · intro hlt
      have hne : ¬ e.osm_id = needle := by omega
      rw [lookupGo, if_pos hlr, he]
      simp only [if_neg hne, if_pos hlt]
    · intro hgt
      have hne : ¬ e.osm_id = needle := by omega
      have hnlt : ¬ e.osm_id < needle := by omega
      rw [lookupGo, if_pos hlr, he]
      simp only [if_neg hne, if_neg hnlt]
  · intro hrl
    rw [lookupGo, if_neg (by omega)]

/-- C7 witness: a two-entry index probed on the range `[0, 1]` with `n = 2`. -/
theorem C7_canonical_binary_search_witness :
    ((0 : Int) ≤ 1 →
      ((0 : Int) ≤ 1 - 0 ∧ (1 : Int) - 0 ≤ 2 ^ 31 - 1 ∧
        (0 : Int) ≤ bsMid 0 1 ∧ bsMid 0 1 ≤ 1 ∧
        (0 : Int) ≤ bsMid 0 1 ∧ bsMid 0 1 < 2) ∧
      ∀ e : IndexRecord,
        [IndexRecord.mk 10 0, IndexRecord.mk 20 1][(bsMid 0 1).toNat]? =
          some e →
        (e.osm_id = 20 →
          lookupGo [IndexRecord.mk 10 0, IndexRecord.mk 20 1] 20 0 1 =
            some e.record) ∧
        (e.osm_id < 20 →
          lookupGo [IndexRecord.mk 10 0, IndexRecord.mk 20 1] 20 0 1 =
            lookupGo [IndexRecord.mk 10 0, IndexRecord.mk 20 1] 20
              (bsMid 0 1 + 1) 1) ∧
        ((20 : Int) < e.osm_id →
          lookupGo [IndexRecord.mk 10 0, IndexRecord.mk 20 1] 20 0 1 =
            lookupGo [IndexRecord.mk 10 0, IndexRecord.mk 20 1] 20 0
              (bsMid 0 1 - 1))) ∧
    ((1 : Int) < 0 →
      lookupGo [IndexRecord.mk 10 0, IndexRecord.mk 20 1] 20 0 1 = none) :=
  C7_canonical_binary_search [IndexRecord.mk 10 0, IndexRecord.mk 20 1] 20
    0 1 2 (by decide) (by decide) (by norm_num)

end OSM
